import Mathlib

/-!
Verification development for the Canvas MCP server's core access layer.

Shallow embedding of:
- src/core/errors.ts (error classification),
- src/canvas/client.ts (retry/backoff, pagination),
- src/canvas/auth.ts (OAuth token refresh state machine),
- src/tools/mappers.ts (course/assignment mapping),
- src/tools/tools.ts (upcoming-work aggregation, course season ranking).

Conventions used throughout the embedding:
- JS numbers appearing as timestamps, ids, statuses and record payloads are
  modelled as Lean integers / naturals (no floating point is relevant to the
  modelled code paths; `Number.isFinite` dispatch is modelled explicitly where
  the source checks it).
- A JS `string | null | undefined` whose only use is a truthiness test plus a
  value read is modelled as `Option String`, where `none` covers `null`,
  `undefined` and the falsy empty string.
- A JS date string is modelled by the result of `Date.parse` on it:
  `DateStr.parseMs = none` models `NaN` (an unparseable string).
- JS `Map` (insertion-ordered, `set` updates in place) is modelled as an
  association list, see `mapSet` / `mapHas` / `jsLookup`.
-/

namespace Canvas

/-! ## core/errors.ts -/

/-- Error codes of `src/core/errors.ts` (`ErrorCode`). -/
inductive ErrorCode where
  | authorizationFailed
  | notFound
  | rateLimited
  | canvasUnavailable
  | badRequest
  | unknown
deriving DecidableEq, Repr

/-- `AppError`, without the opaque `details` payload (never inspected by the
modelled code paths). -/
structure AppError where
  code : ErrorCode
  message : String
  httpStatus : Nat
  requestId : Option String
  canvasStatus : Option Nat
deriving DecidableEq, Repr

/-- `STATUS_TO_CODE` lookup table. -/
def STATUS_TO_CODE (status : Nat) : Option ErrorCode :=
  if status = 400 then some .badRequest
  else if status = 401 then some .authorizationFailed
  else if status = 403 then some .authorizationFailed
  else if status = 404 then some .notFound
  else if status = 429 then some .rateLimited
  else none

/-- `STATUS_TO_MESSAGE` lookup table. -/
def STATUS_TO_MESSAGE (status : Nat) : Option String :=
  if status = 400 then some "Invalid request sent to Canvas."
  else if status = 401 then some "Authorization failed: check Canvas token/scopes."
  else if status = 403 then some "Authorization failed: check Canvas token/scopes."
  else if status = 404 then some "Not found: course or assignment id."
  else if status = 429 then some "Rate limited by Canvas; retry later."
  else none

/-- `canvasError(status, requestId, fallbackMessage, details)`. -/
def canvasError (status : Nat) (requestId : Option String)
    (fallbackMessage : Option String) : AppError :=
  let code := (STATUS_TO_CODE status).getD .canvasUnavailable
  let httpStatus := if 500 ≤ status then 503 else status
  let httpStatus := if code = .canvasUnavailable then 503 else httpStatus
  let message := (STATUS_TO_MESSAGE status).getD "Canvas temporarily unavailable."
  { code := code
    message := fallbackMessage.getD message
    httpStatus := httpStatus
    requestId := requestId
    canvasStatus := some status }

/-- `unknownError(message, details)`. -/
def unknownError (message : String) : AppError :=
  { code := .unknown
    message := message
    httpStatus := 500
    requestId := none
    canvasStatus := none }

/-! ## src/canvas/client.ts -/

/-- A non-empty `retry-after` header string, represented by the results of the
two parses the source applies to it: `numberVal` is the result of
`Number(header)` (`none` models `NaN`), `dateVal` the result of
`Date.parse(header)` (`none` models `NaN`).  An absent or empty header (both
falsy in JS) is modelled by `none` at the use sites. -/
structure RetryAfterStr where
  numberVal : Option Int
  dateVal : Option Int
deriving DecidableEq, Repr

/-- `parseRetryAfter(header)`.  `now` stands for the `Date.now()` call in the
HTTP-date branch.  Returns the delay in milliseconds, or `none` when no usable
hint is present. -/
def parseRetryAfter (header : Option RetryAfterStr) (now : Int) : Option Int :=
  match header with
  | none => none
  | some h =>
    match h.numberVal with
    | some seconds => some (seconds * 1000)
    | none =>
      match h.dateVal with
      | some date =>
        let delta := date - now
        some (if 0 < delta then delta else 0)
      | none => none

/-- `CanvasClient.retryDelay(attempt, retryAfter)`.  `rand` stands for the
`Math.random()` sample in the jitter branch. -/
def retryDelay (attempt : Nat) (header : Option RetryAfterStr) (now : Int)
    (rand : ℚ) : ℚ :=
  match parseRetryAfter header now with
  | some d => (d : ℚ)
  | none =>
    let base : ℚ := 500 * 2 ^ attempt
    let jitter := base * (1 / 2 + rand)
    min 5000 jitter

/-- `shouldRetry(status)`. -/
def shouldRetry (status : Nat) : Bool :=
  status = 429 || (500 ≤ status && status < 600)

/-- One physical HTTP response, as consumed by the client: status, the
`retry-after` header, the `x-request-id` header, and the parsed body —
`isArray` tells whether the JSON payload is an array (the only body shape
`getAll` accepts), `records` its elements (record payloads abstracted to
integers), `hasNext` whether the `link` header has a `rel="next"` entry, and
`message` the result of `extractCanvasMessage` on an error payload. -/
structure Resp where
  status : Nat
  retryAfter : Option RetryAfterStr
  requestId : Option String
  isArray : Bool
  records : List Int
  hasNext : Bool
  message : Option String
deriving DecidableEq, Repr

/-- `response.ok` (status in the 200–299 range). -/
def Resp.ok (r : Resp) : Bool :=
  200 ≤ r.status && r.status < 300

/-- `CanvasClient.fetchWithRetry(url, init, attempt)`.

The network is scripted: each physical `fetch` consumes the head of `script`
(`none` models a transport-level throw), and each `auth.handleUnauthorized()`
call on a 401 consumes the head of `refreshes`.  The result is the final
response (`Except.error ()` models the propagated transport error after the
ceiling) together with the number of physical fetches performed; the outer
`Option` is `none` only when the script is too short to determine a result. -/
def fetchWithRetry (maxRetries : Nat) :
    List (Option Resp) → List Bool → Nat → Option (Except Unit Resp × Nat)
  | [], _, _ => none
  | none :: rest, refreshes, attempt =>
    if maxRetries ≤ attempt then
      some (.error (), 1)
    else
      match fetchWithRetry maxRetries rest refreshes (attempt + 1) with
      | none => none
      | some (res, n) => some (res, n + 1)
  | some resp :: rest, refreshes, attempt =>
    if resp.status = 401 then
      match refreshes with
      | [] => none
      | refreshed :: restRef =>
        if refreshed && decide (attempt < maxRetries) then
          match fetchWithRetry maxRetries rest restRef (attempt + 1) with
          | none => none
          | some (res, n) => some (res, n + 1)
        else
          -- fall through: `shouldRetry 401 = false`, so the response returns
          some (.ok resp, 1)
    else if shouldRetry resp.status && decide (attempt < maxRetries) then
      match fetchWithRetry maxRetries rest refreshes (attempt + 1) with
      | none => none
      | some (res, n) => some (res, n + 1)
    else
      some (.ok resp, 1)

/-- Errors escaping `CanvasClient.getAll`: a classified `AppError`, or the raw
transport error rethrown after the retry ceiling. -/
inductive ClientError where
  | app (e : AppError)
  | transport
deriving DecidableEq, Repr

/-- The scripted network interactions of one logical page request. -/
structure PageScript where
  fetches : List (Option Resp)
  refreshes : List Bool
deriving DecidableEq, Repr

/-- The pagination loop of `CanvasClient.getAll`.  Each logical page calls
`fetchWithRetry` afresh with `attempt = 0`; a successful page appends its
records and (when present) its `x-request-id` and continues while the `link`
header has a `next` relation.  Returns the accumulated records, the request-id
sequence and the last page's status, together with the per-page physical fetch
counts; `none` models script underflow. -/
def getAllGo (maxRetries : Nat) :
    List PageScript →
    Option (Except ClientError (List Int × List String × Nat) × List Nat)
  | [] => none
  | p :: rest =>
    match fetchWithRetry maxRetries p.fetches p.refreshes 0 with
    | none => none
    | some (.error _, n) => some (.error .transport, [n])
    | some (.ok resp, n) =>
      let ids0 : List String :=
        match resp.requestId with
        | some id => [id]
        | none => []
      if resp.ok = false then
        some (.error (.app (canvasError resp.status resp.requestId resp.message)), [n])
      else if resp.isArray = false then
        some (.error (.app (unknownError "Expected a list response from Canvas.")), [n])
      else if resp.hasNext then
        match getAllGo maxRetries rest with
        | none => none
        | some (.error e, ns) => some (.error e, n :: ns)
        | some (.ok (recs, ids, st), ns) =>
          some (.ok (resp.records ++ recs, ids0 ++ ids, st), n :: ns)
      else
        some (.ok (resp.records, ids0, resp.status), [n])

/-- The final response of one logical page request (successful case). -/
def pageResp (maxRetries : Nat) (p : PageScript) : Option Resp :=
  match fetchWithRetry maxRetries p.fetches p.refreshes 0 with
  | some (.ok r, _) => some r
  | _ => none

/-- A well-formed continuation chain: every page except the last announces a
`next` link, and the last does not. -/
def pagesChain : List Resp → Bool
  | [] => false
  | [r] => !r.hasNext
  | r :: rest => r.hasNext && pagesChain rest

/-! ## JS string primitives (kernel-computable models) -/

/-- Does the first character list start with the second one? -/
def strLeadsWith : List Char → List Char → Bool
  | _, [] => true
  | [], _ :: _ => false
  | a :: ta, b :: tb => a = b && strLeadsWith ta tb

/-- Substring occurrence on character lists. -/
def strHasSub : List Char → List Char → Bool
  | [], kw => kw.isEmpty
  | a :: rest, kw => strLeadsWith (a :: rest) kw || strHasSub rest kw

/-- JS `String.prototype.includes`. -/
def jsIncludes (s kw : String) : Bool :=
  strHasSub s.data kw.data

/-- JS `String.prototype.toLowerCase` (character-wise, which agrees with it on
the ASCII keywords the ranking compares against). -/
def jsToLower (s : String) : String :=
  ⟨s.data.map Char.toLower⟩

/-- JS `String.prototype.trim`: strip leading and trailing whitespace. -/
def jsTrim (s : String) : String :=
  ⟨((s.data.dropWhile Char.isWhitespace).reverse.dropWhile
      Char.isWhitespace).reverse⟩

/-! ## src/tools/mappers.ts and src/tools/schemas.ts -/

/-- A JS date string, represented by its `Date.parse` result in milliseconds
(`none` models `NaN`).  A `DateStr` always stands for a non-empty (truthy)
string; the absent / null / empty cases are the `none` of `Option DateStr`. -/
structure DateStr where
  parseMs : Option Int
deriving DecidableEq, Repr

/-- `submissionStateSchema` values. -/
inductive SubmissionState where
  | unsubmitted
  | submitted
  | graded
  | pending_review
  | late
  | missing
  | excused
deriving DecidableEq, Repr

/-- `CanvasSubmission` (optional booleans collapse `undefined` to `false`,
matching their truthiness tests). -/
structure CanvasSubmission where
  workflow_state : Option String
  late : Bool
  missing : Bool
  excused : Bool
deriving DecidableEq, Repr

/-- A raw upstream assignment shape (`CanvasAssignment`), with the fields the
aggregation reads.  `course_id` and `html_url` are optional because the to-do
feed may omit them (the code defaults them at the call sites). -/
structure CanvasAssignmentR where
  id : Int
  course_id : Option Int
  name : String
  due_at : Option DateStr
  points_possible : Option Int
  html_url : Option String
  submission : Option CanvasSubmission
deriving DecidableEq, Repr

/-- `CanvasTodoItem` (only the fields the aggregation reads). -/
structure CanvasTodoItem where
  assignment : Option CanvasAssignmentR
  html_url : Option String
  course_id : Option Int
deriving DecidableEq, Repr

/-- The provenance tag of a merged upcoming entry. -/
inductive Source where
  | todo
  | assignment
deriving DecidableEq, Repr

/-- `UpcomingItem` of `schemas.ts`: an assignment shape plus a provenance
tag. -/
structure UpcomingItem where
  id : Int
  course_id : Option Int
  name : String
  due_at : Option DateStr
  points : Option Int
  html_url : Option String
  submission_state : SubmissionState
  source : Source
deriving DecidableEq, Repr

/-- `computeSubmissionState(submission)`. -/
def computeSubmissionState (submission : Option CanvasSubmission) : SubmissionState :=
  match submission with
  | none => .unsubmitted
  | some s =>
    if s.excused then .excused
    else
      match s.workflow_state with
      | some "graded" => .graded
      | some "pending_review" => .pending_review
      | some "submitted" => if s.late then .late else .submitted
      | some "unsubmitted" => if s.missing then .missing else .unsubmitted
      | _ => if s.missing then .missing else .unsubmitted

/-- `mapUpcomingFromAssignment(assignment, source)` (that is, `mapAssignment`
with a provenance tag). -/
def mapUpcomingFromAssignment (raw : CanvasAssignmentR) (source : Source) :
    UpcomingItem :=
  { id := raw.id
    course_id := raw.course_id
    name := raw.name
    due_at := raw.due_at
    points := raw.points_possible
    html_url := raw.html_url
    submission_state := computeSubmissionState raw.submission
    source := source }

/-- A raw upstream course (`CanvasCourse`): `name` / `course_code` are `none`
when missing or not a string (the `typeof` guards), `termName` is
`raw.term?.name` collapsed through its null checks. -/
structure CanvasCourseRaw where
  id : Int
  name : Option String
  course_code : Option String
  termName : Option String
deriving DecidableEq, Repr

/-- `Course` of `schemas.ts`. -/
structure Course where
  id : Int
  name : String
  term : String
  course_code : String
deriving DecidableEq, Repr

/-- `normalizeTerm(term)`. -/
def normalizeTerm (term : Option String) : String :=
  match term with
  | some s => jsTrim s
  | none => ""

/-- `mapCourse(raw)`. -/
def mapCourse (raw : CanvasCourseRaw) : Course :=
  let trimmedName := jsTrim (raw.name.getD "")
  let trimmedCourseCode := jsTrim (raw.course_code.getD "")
  let safeCourseCode :=
    if trimmedCourseCode ≠ "" then trimmedCourseCode
    else "COURSE-" ++ toString raw.id
  let safeName :=
    if trimmedName ≠ "" then trimmedName
    else if safeCourseCode ≠ "" then safeCourseCode
    else "Course " ++ toString raw.id
  { id := raw.id
    name := safeName
    term := normalizeTerm raw.termName
    course_code := safeCourseCode }

/-! ## src/tools/tools.ts — season ranking -/

/-- The `TERM_ORDER` keyword table, in source order. -/
def TERM_ORDER : List (String × Nat) :=
  [("winter", 1), ("spring", 2), ("summer", 3), ("fall", 4), ("autumn", 4),
   ("fall-winter", 5)]

/-- `extractSeasonRank(value)`: the rank of the first `TERM_ORDER` keyword
contained in the lower-cased value. -/
def extractSeasonRank (value : Option String) : Option Nat :=
  match value with
  | none => none
  | some v =>
    if v = "" then none
    else
      let lower := jsToLower v
      (TERM_ORDER.find? (fun kv => jsIncludes lower kv.1)).map (fun kv => kv.2)

/-! ## src/tools/tools.ts — upcoming-work aggregation -/

/-- `isWithinRange(isoDate, start, end)`. -/
def isWithinRange (isoDate : Option DateStr) (startMs endMs : Int) : Bool :=
  match isoDate with
  | none => false
  | some d =>
    match d.parseMs with
    | none => false
    | some ts => decide (startMs ≤ ts) && decide (ts ≤ endMs)

/-- JS `Map.prototype.has` on the association-list model. -/
def mapHas {α : Type} (m : List (Int × α)) (k : Int) : Bool :=
  m.any (fun p => p.1 = k)

/-- JS `Map.prototype.set`: updates the value in place when the key exists
(keeping its insertion position), otherwise appends. -/
def mapSet {α : Type} (m : List (Int × α)) (k : Int) (v : α) : List (Int × α) :=
  if mapHas m k then m.map (fun p => if p.1 = k then (k, v) else p)
  else m ++ [(k, v)]

/-- JS `Map.prototype.get`. -/
def jsLookup {α : Type} (m : List (Int × α)) (k : Int) : Option α :=
  (m.find? (fun p => p.1 = k)).map (fun p => p.2)

/-- JS `Map.prototype.values` (insertion order). -/
def mapValues {α : Type} (m : List (Int × α)) : List α :=
  m.map (fun p => p.2)

/-- The to-do loop of `list_upcoming`: normalize each assignment-backed to-do,
keep it when its due date lies in `[now, rangeEnd]`, and `set` it into the map
tagged `todo`. -/
def todoPass (now rangeEnd : Int) :
    List CanvasTodoItem → List (Int × UpcomingItem) → List (Int × UpcomingItem)
  | [], m => m
  | t :: rest, m =>
    match t.assignment with
    | none => todoPass now rangeEnd rest m
    | some a =>
      let assignment : CanvasAssignmentR :=
        { a with
          course_id := some (a.course_id.getD (t.course_id.getD 0))
          html_url := some (a.html_url.getD (t.html_url.getD "")) }
      if isWithinRange assignment.due_at now rangeEnd then
        let mapped := mapUpcomingFromAssignment assignment .todo
        todoPass now rangeEnd rest (mapSet m mapped.id mapped)
      else
        todoPass now rangeEnd rest m

/-- The per-course assignment loop of `list_upcoming`: keep an assignment when
its due date is absent (falsy) or in range, and insert it tagged `assignment`
only when no entry with that id exists yet. -/
def assignmentPass (now rangeEnd : Int) (courseId : Int) :
    List CanvasAssignmentR → List (Int × UpcomingItem) → List (Int × UpcomingItem)
  | [], m => m
  | a :: rest, m =>
    let dueAt := a.due_at
    if dueAt.isSome && !isWithinRange dueAt now rangeEnd then
      assignmentPass now rangeEnd courseId rest m
    else
      let mapped := mapUpcomingFromAssignment
        { a with course_id := some (a.course_id.getD courseId) } .assignment
      if mapHas m mapped.id then
        assignmentPass now rangeEnd courseId rest m
      else
        assignmentPass now rangeEnd courseId rest (mapSet m mapped.id mapped)

/-- An error escaping a per-course `getAll` call: an `AppError`, or any other
thrown value. -/
inductive FetchError where
  | app (e : AppError)
  | other
deriving DecidableEq, Repr

/-- The `error instanceof AppError && error.code === 'AUTHORIZATION_FAILED'`
test of the per-course catch. -/
def isAuthFailure : FetchError → Bool
  | .app e => e.code = .authorizationFailed
  | .other => false

/-- The course loop of `list_upcoming`, over the scripted per-course fetch
results (`course id`, assignments or error): an authorization failure skips
the course, any other failure aborts. -/
def coursesPass (now rangeEnd : Int) :
    List (Int × Except FetchError (List CanvasAssignmentR)) →
    List (Int × UpcomingItem) → Except FetchError (List (Int × UpcomingItem))
  | [], m => .ok m
  | (_cid, .error e) :: rest, m =>
    if isAuthFailure e then coursesPass now rangeEnd rest m
    else .error e
  | (cid, .ok asgs) :: rest, m =>
    coursesPass now rangeEnd rest (assignmentPass now rangeEnd cid asgs m)

/-- The deduplication map after both feeds have been folded in. -/
def mergedMap (now rangeEnd : Int) (todos : List CanvasTodoItem)
    (courseResults : List (Int × Except FetchError (List CanvasAssignmentR))) :
    Except FetchError (List (Int × UpcomingItem)) :=
  coursesPass now rangeEnd courseResults (todoPass now rangeEnd todos [])

/-- The sort key of the final comparator: `Date.parse(due_at)` with a falsy
`due_at` mapped to `Number.POSITIVE_INFINITY` (modelled by `⊤`).  An entry
with a truthy but unparseable due date can never reach the map (both feed
filters reject it), so its key is irrelevant; the model also sends it to
`⊤`. -/
def sortTime (e : UpcomingItem) : WithTop Int :=
  match e.due_at with
  | none => ⊤
  | some d =>
    match d.parseMs with
    | some ts => (ts : WithTop Int)
    | none => ⊤

/-- The comparator order `aTime - bTime ≤ 0` of the final sort (the comparator
returns `NaN`, treated as `0`, when both keys are infinite, so equal keys tie
and the sort's stability preserves insertion order). -/
def upKeyLE (a b : UpcomingItem) : Prop :=
  sortTime a ≤ sortTime b

instance : DecidableRel upKeyLE :=
  fun a b => inferInstanceAs (Decidable (sortTime a ≤ sortTime b))

instance : IsTotal UpcomingItem upKeyLE :=
  ⟨fun a b => le_total (sortTime a) (sortTime b)⟩

instance : IsTrans UpcomingItem upKeyLE :=
  ⟨fun _ _ _ hab hbc => le_trans hab hbc⟩

/-- The final `.sort(...)` call: `Array.prototype.sort` is required to be
stable and its comparator here is total and transitive, so it is modelled by a
stable sorting algorithm over `upKeyLE`. -/
def sortUpcoming (l : List UpcomingItem) : List UpcomingItem :=
  l.insertionSort upKeyLE

/-- The full `list_upcoming` aggregation over scripted feed contents. -/
def listUpcoming (now rangeEnd : Int) (todos : List CanvasTodoItem)
    (courseResults : List (Int × Except FetchError (List CanvasAssignmentR))) :
    Except FetchError (List UpcomingItem) :=
  match mergedMap now rangeEnd todos courseResults with
  | .error e => .error e
  | .ok m => .ok (sortUpcoming (mapValues m))

/-! ## src/canvas/auth.ts — refreshable OAuth strategy -/

/-- A JS number as it matters to the `expires_in` handling: a finite integer,
`NaN`, or an infinity. -/
inductive JsNum where
  | num (v : Int)
  | nan
  | inf
deriving DecidableEq, Repr

/-- JS truthiness of a number (`0` and `NaN` are falsy). -/
def JsNum.truthy : JsNum → Bool
  | .num v => v ≠ 0
  | .nan => false
  | .inf => true

/-- `Number.isFinite`. -/
def JsNum.isFinite : JsNum → Bool
  | .num _ => true
  | .nan => false
  | .inf => false

/-- The integer value of a finite `JsNum` (unused otherwise). -/
def JsNum.toInt : JsNum → Int
  | .num v => v
  | .nan => 0
  | .inf => 0

/-- JS truthiness of an optional string (`undefined` and the empty string are
falsy). -/
def strTruthy : Option String → Bool
  | none => false
  | some s => !s.isEmpty

/-- The JSON body of a successful token-endpoint response. -/
structure TokenPayload where
  access_token : String
  refresh_token : Option String
  expires_in : Option JsNum
deriving DecidableEq, Repr

/-- The mutable fields of `OAuthTokenAuth`. -/
structure OAuthState where
  accessToken : Option String
  refreshToken : String
  tokenExpiresAt : Option Int
deriving DecidableEq, Repr

/-- The state update of `performRefresh` on a successful (2xx, parsed)
token-endpoint response: cache the access token, rotate the refresh token when
a truthy one is supplied, and recompute the expiry instant — or clear it when
`expires_in` is absent, zero, or not finite. -/
def performRefreshUpdate (st : OAuthState) (payload : TokenPayload)
    (now : Int) : OAuthState :=
  let st1 := { st with accessToken := some payload.access_token }
  let st2 :=
    match payload.refresh_token with
    | some rt => { st1 with refreshToken := rt }
    | none => st1
  match payload.expires_in with
  | some e =>
    if e.truthy && e.isFinite then
      { st2 with tokenExpiresAt := some (now + (max (e.toInt - 60) 0) * 1000) }
    else
      { st2 with tokenExpiresAt := none }
  | none => { st2 with tokenExpiresAt := none }

/-- `shouldRefreshSoon()`: false while the expiry is unknown (`null`, and also
the number `0`, both falsy), otherwise true once `Date.now()` reaches the
60-second safety margin. -/
def shouldRefreshSoon (st : OAuthState) (now : Int) : Bool :=
  match st.tokenExpiresAt with
  | none => false
  | some t =>
    if t = 0 then false
    else decide (t - 60000 ≤ now)

/-- One `refreshTokenPair` call, with the token endpoint scripted: a failed
exchange throws, a successful one applies `performRefreshUpdate`. -/
def refreshOnce (st : OAuthState) (now : Int)
    (res : Except Unit TokenPayload) : Except Unit OAuthState :=
  match res with
  | .ok p => .ok (performRefreshUpdate st p now)
  | .error _ => .error ()

/-- `getAuthorizationHeader()`: refresh when the expiry is within the safety
margin, refresh again if no (truthy) access token is cached, then return the
bearer header; throws when no token results.  Returns the header, the final
state, and the number of refreshes performed. -/
def getAuthorizationHeader (st : OAuthState) (now : Int)
    (res : Except Unit TokenPayload) :
    Except Unit (String × OAuthState × Nat) :=
  match (if shouldRefreshSoon st now
         then (refreshOnce st now res).map (fun s => (s, 1))
         else .ok (st, 0)) with
  | .error e => .error e
  | .ok (st1, n1) =>
    match (if strTruthy st1.accessToken then Except.ok (st1, n1)
           else (refreshOnce st1 now res).map (fun s => (s, n1 + 1))) with
    | .error e => .error e
    | .ok (st2, n2) =>
      if strTruthy st2.accessToken then
        .ok ("Bearer " ++ st2.accessToken.getD "", st2, n2)
      else .error ()

/-- `handleUnauthorized()`: an unconditional (forced) refresh, reporting
whether a truthy access token resulted. -/
def handleUnauthorized (st : OAuthState) (now : Int)
    (res : Except Unit TokenPayload) : Except Unit (Bool × OAuthState) :=
  match refreshOnce st now res with
  | .error e => .error e
  | .ok st2 => .ok (strTruthy st2.accessToken, st2)

/-! ## Helper lemmas -/

theorem append_ne_empty_of_left (s t : String) (h : s.length ≠ 0) :
    s ++ t ≠ "" := by
  intro he
  have hl : (s ++ t).length = 0 := by rw [he]; rfl
  rw [String.length_append] at hl
  omega

/-! ## C1 — classification of statuses outside the table -/

/-- C1 counterexample: for upstream status 302 — outside the classifier's
table and below 500 — `canvasError` returns kind `canvasUnavailable`, not
`unknown`, refuting the claim that out-of-table statuses map to the unknown
kind. -/
theorem C1_counterexample :
    (canvasError 302 none none).code = ErrorCode.canvasUnavailable ∧
    (canvasError 302 none none).code ≠ ErrorCode.unknown := by
  exact ⟨rfl, by decide⟩

/-- C1 (amended): every upstream status outside the classifier's table — not
400, 401, 403, 404 or 429, whether or not it is ≥ 500 — is classified as
`canvasUnavailable` (upstream-unavailable) with http status 503; the `unknown`
kind is never produced for such statuses. -/
theorem C1_unmapped_status_unavailable (status : Nat) (rid msg : Option String)
    (h400 : status ≠ 400) (h401 : status ≠ 401) (h403 : status ≠ 403)
    (h404 : status ≠ 404) (h429 : status ≠ 429) :
    (canvasError status rid msg).code = ErrorCode.canvasUnavailable ∧
    (canvasError status rid msg).httpStatus = 503 := by
  unfold canvasError STATUS_TO_CODE
  simp [h400, h401, h403, h404, h429]

/-- C1 witness: the amended theorem applied at status 302. -/
theorem C1_witness :
    ((302 : Nat) ≠ 400) ∧
    (canvasError 302 none none).code = ErrorCode.canvasUnavailable ∧
    (canvasError 302 none none).httpStatus = 503 := by
  have h := C1_unmapped_status_unavailable 302 none none (by decide) (by decide)
    (by decide) (by decide) (by decide)
  exact ⟨by decide, h.1, h.2⟩

/-! ## C3 — retry-after hint handling -/

/-- C3 counterexample: a numeric retry-after hint of −2 seconds yields a
computed delay of −2000 ms, which is negative — the numeric branch performs no
clamping, refuting the claim that the delay equals max(N·1000, 0). -/
theorem C3_counterexample :
    retryDelay 0 (some { numberVal := some (-2), dateVal := none }) 0 0
      = ((-2000 : Int) : ℚ) ∧
    ((-2000 : Int) : ℚ) < 0 := by
  constructor
  · norm_num [retryDelay, parseRetryAfter]
  · norm_num

/-- C3 (amended): when a retried response carries a parseable retry-after
hint, the computed backoff delay equals the hint and the exponential-jitter
formula is not used: a numeric hint of N seconds yields N·1000 ms with no
clamping (a negative hint yields a negative delay), and an HTTP-date hint
yields max(date − now, 0) ms. -/
theorem C3_retry_after_hint (h : RetryAfterStr) (now : Int) (attempt : Nat)
    (rand : ℚ) :
    (∀ n, h.numberVal = some n →
      parseRetryAfter (some h) now = some (n * 1000) ∧
      retryDelay attempt (some h) now rand = ((n * 1000 : Int) : ℚ)) ∧
    (∀ t, h.numberVal = none → h.dateVal = some t →
      parseRetryAfter (some h) now = some (max (t - now) 0) ∧
      retryDelay attempt (some h) now rand = ((max (t - now) 0 : Int) : ℚ)) := by
  constructor
  · intro n hn
    have hp : parseRetryAfter (some h) now = some (n * 1000) := by
      simp [parseRetryAfter, hn]
    exact ⟨hp, by simp [retryDelay, hp]⟩
  · intro t hn ht
    have hp : parseRetryAfter (some h) now = some (max (t - now) 0) := by
      simp only [parseRetryAfter, hn, ht]
      congr 1
      split <;> omega
    exact ⟨hp, by simp [retryDelay, hp]⟩

/-- C3 witness: the amended theorem applied to the numeric hint 2 and to the
HTTP-date hint 5000 ms with now = 2000 ms. -/
theorem C3_witness :
    (({ numberVal := some 2, dateVal := none } : RetryAfterStr).numberVal
      = some 2) ∧
    retryDelay 1 (some { numberVal := some 2, dateVal := none }) 0 0
      = ((2000 : Int) : ℚ) ∧
    retryDelay 1 (some { numberVal := none, dateVal := some 5000 }) 2000 0
      = ((3000 : Int) : ℚ) := by
  have h1 := (C3_retry_after_hint { numberVal := some 2, dateVal := none }
    0 1 0).1 2 rfl
  have h2 := (C3_retry_after_hint { numberVal := none, dateVal := some 5000 }
    2000 1 0).2 5000 rfl rfl
  refine ⟨rfl, ?_, ?_⟩
  · simpa using h1.2
  · simpa using h2.2

/-! ## C7 — season rank of fall-winter terms -/

/-- C7: evaluating the season ranking at the failing input — a term label
containing "fall-winter" matches the "winter" table entry first and receives
season rank 1, not the table's fall-winter rank 5 (the fall-winter row is
unreachable because any string containing "fall-winter" contains "winter"). -/
theorem C7_fall_winter_rank_one :
    extractSeasonRank (some "Fall-Winter 2024") = some 1 ∧ (1 : Nat) ≠ 5 := by
  exact ⟨by decide, by decide⟩

/-! ## C10 — mapCourse fallbacks -/

/-- C10: for every raw upstream course, the mapped course has a non-empty name
and a non-empty course code; a missing or whitespace-only course code is
replaced by "COURSE-<id>", and a missing or whitespace-only name falls back to
the (possibly synthesized) course code. -/
theorem C10_mapCourse_nonempty (raw : CanvasCourseRaw) :
    ((mapCourse raw).name ≠ "" ∧ (mapCourse raw).course_code ≠ "") ∧
    (jsTrim (raw.course_code.getD "") = "" →
      (mapCourse raw).course_code = "COURSE-" ++ toString raw.id) ∧
    (jsTrim (raw.name.getD "") = "" →
      (mapCourse raw).name = (mapCourse raw).course_code) := by
  have hpre : "COURSE-" ++ toString raw.id ≠ "" :=
    append_ne_empty_of_left _ _ (by decide)
  by_cases hcc : jsTrim (raw.course_code.getD "") = "" <;>
    by_cases hn : jsTrim (raw.name.getD "") = "" <;>
    simp [mapCourse, hcc, hn, hpre]

/-- C10 witness: the theorem applied to a course with no name and no code. -/
theorem C10_witness :
    (jsTrim ((none : Option String).getD "") = "") ∧
    (mapCourse ⟨7, none, none, none⟩).course_code
      = "COURSE-" ++ toString (7 : Int) ∧
    (mapCourse ⟨7, none, none, none⟩).name
      = (mapCourse ⟨7, none, none, none⟩).course_code := by
  have h := C10_mapCourse_nonempty ⟨7, none, none, none⟩
  exact ⟨by decide, h.2.1 (by decide), h.2.2 (by decide)⟩

/-! ## C9 — unknown token expiry -/

/-- C9: a token-refresh response whose `expires_in` is absent, zero, `NaN` or
infinite sets the cached expiry to unknown (`none`); while the expiry is
unknown, `getAuthorizationHeader` performs no refresh and returns the cached
access token with the state unchanged; `handleUnauthorized` always performs a
forced refresh and reports whether a truthy token resulted. -/
theorem C9_unknown_expiry :
    (∀ (st : OAuthState) (p : TokenPayload) (now : Int),
      (p.expires_in = none ∨ p.expires_in = some .nan ∨
        p.expires_in = some (.num 0) ∨ p.expires_in = some .inf) →
      (performRefreshUpdate st p now).tokenExpiresAt = none) ∧
    (∀ (st : OAuthState) (now : Int) (res : Except Unit TokenPayload),
      strTruthy st.accessToken = true → st.tokenExpiresAt = none →
      getAuthorizationHeader st now res =
        .ok ("Bearer " ++ st.accessToken.getD "", st, 0)) ∧
    (∀ (st : OAuthState) (now : Int) (p : TokenPayload),
      handleUnauthorized st now (.ok p) =
        .ok (strTruthy (some p.access_token), performRefreshUpdate st p now)) := by
  refine ⟨?_, ?_, ?_⟩
  · intro st p now hp
    rcases hp with hp | hp | hp | hp <;>
      cases hrt : p.refresh_token <;>
      simp [performRefreshUpdate, hp, hrt, JsNum.truthy, JsNum.isFinite]
  · intro st now res htok hexp
    have hs : shouldRefreshSoon st now = false := by
      simp [shouldRefreshSoon, hexp]
    simp [getAuthorizationHeader, hs, htok]
  · intro st now p
    have hacc : (performRefreshUpdate st p now).accessToken
        = some p.access_token := by
      cases hrt : p.refresh_token <;> cases he : p.expires_in <;>
        simp [performRefreshUpdate, hrt, he] <;> split <;> rfl
    simp [handleUnauthorized, refreshOnce, hacc]

/-- C9 witness: the theorem applied to a payload with `expires_in` omitted and
to a state holding a cached token with unknown expiry. -/
theorem C9_witness :
    (((⟨"tok2", none, none⟩ : TokenPayload).expires_in = none ∨
      (⟨"tok2", none, none⟩ : TokenPayload).expires_in = some .nan ∨
      (⟨"tok2", none, none⟩ : TokenPayload).expires_in = some (.num 0) ∨
      (⟨"tok2", none, none⟩ : TokenPayload).expires_in = some .inf) ∧
     OAuthState.tokenExpiresAt
       (performRefreshUpdate ⟨some "tok", "r", some 99⟩ ⟨"tok2", none, none⟩ 5)
       = none) ∧
    (strTruthy (some "tok") = true ∧
     getAuthorizationHeader ⟨some "tok", "r", none⟩ 5 (.error ()) =
       .ok ("Bearer " ++ (some "tok").getD "", ⟨some "tok", "r", none⟩, 0)) ∧
    handleUnauthorized ⟨some "tok", "r", none⟩ 5 (.ok ⟨"tok2", none, none⟩) =
      .ok (strTruthy (some "tok2"),
        performRefreshUpdate ⟨some "tok", "r", none⟩ ⟨"tok2", none, none⟩ 5) := by
  refine ⟨⟨Or.inl rfl, ?_⟩, ⟨rfl, ?_⟩, ?_⟩
  · exact C9_unknown_expiry.1 ⟨some "tok", "r", some 99⟩ ⟨"tok2", none, none⟩ 5
      (Or.inl rfl)
  · exact C9_unknown_expiry.2.1 ⟨some "tok", "r", none⟩ 5 (.error ()) rfl rfl
  · exact C9_unknown_expiry.2.2 ⟨some "tok", "r", none⟩ 5 ⟨"tok2", none, none⟩

/-! ## C4 — retry ceiling, reset per page -/

theorem fetchWithRetry_count (m : Nat) (script : List (Option Resp)) :
    ∀ (refreshes : List Bool) (attempt : Nat) (res : Except Unit Resp) (n : Nat),
      fetchWithRetry m script refreshes attempt = some (res, n) →
      n ≤ 1 + (m - attempt) := by
  induction script with
  | nil =>
    intro refreshes attempt res n h
    simp [fetchWithRetry] at h
  | cons hd rest ih =>
    intro refreshes attempt res n h
    cases hd with
    | none =>
      simp only [fetchWithRetry] at h
      split at h
      · cases h
        omega
      · rename_i hle
        split at h
        · cases h
        · rename_i res2 n2 heq
          cases h
          have := ih _ _ _ _ heq
          omega
    | some resp =>
      simp only [fetchWithRetry] at h
      split at h
      · -- status = 401
        split at h
        · -- refreshes = []
          cases h
        · -- refreshes = refreshed :: restRef
          split at h
          · -- refresh succeeded and attempt below ceiling: recurse
            rename_i hcond
            split at h
            · cases h
            · rename_i res2 n2 heq
              cases h
              simp only [Bool.and_eq_true, decide_eq_true_eq] at hcond
              have := ih _ _ _ _ heq
              omega
          · -- fall through, response returned
            cases h
            omega
      · -- not a 401
        split at h
        · -- retryable status below ceiling: recurse
          rename_i hcond
          split at h
          · cases h
          · rename_i res2 n2 heq
            cases h
            simp only [Bool.and_eq_true, decide_eq_true_eq] at hcond
            have := ih _ _ _ _ heq
            omega
        · -- response returned
          cases h
          omega

theorem getAllGo_counts (m : Nat) (pages : List PageScript) :
    ∀ (r : Except ClientError (List Int × List String × Nat)) (counts : List Nat),
      getAllGo m pages = some (r, counts) → ∀ c ∈ counts, c ≤ 1 + m := by
  induction pages with
  | nil =>
    intro r counts h
    simp [getAllGo] at h
  | cons p rest ih =>
    intro r counts h
    simp only [getAllGo] at h
    split at h
    · cases h
    · rename_i n heq
      cases h
      intro c hc
      simp only [List.mem_singleton] at hc
      subst hc
      have := fetchWithRetry_count m p.fetches p.refreshes 0 _ _ heq
      omega
    · rename_i resp n heq
      split at h
      · cases h
        intro c hc
        simp only [List.mem_singleton] at hc
        subst hc
        have := fetchWithRetry_count m p.fetches p.refreshes 0 _ _ heq
        omega
      · split at h
        · cases h
          intro c hc
          simp only [List.mem_singleton] at hc
          subst hc
          have := fetchWithRetry_count m p.fetches p.refreshes 0 _ _ heq
          omega
        · split at h
          · split at h
            · cases h
            · rename_i ns hrec
              cases h
              intro c hc
              simp only [List.mem_cons] at hc
              rcases hc with hc | hc
              · subst hc
                have := fetchWithRetry_count m p.fetches p.refreshes 0 _ _ heq
                omega
              · exact ih _ _ hrec c hc
            · rename_i recs ids st ns hrec
              cases h
              intro c hc
              simp only [List.mem_cons] at hc
              rcases hc with hc | hc
              · subst hc
                have := fetchWithRetry_count m p.fetches p.refreshes 0 _ _ heq
                omega
              · exact ih _ _ hrec c hc
          · cases h
            intro c hc
            simp only [List.mem_singleton] at hc
            subst hc
            have := fetchWithRetry_count m p.fetches p.refreshes 0 _ _ heq
            omega

/-- C4: per logical page request the client performs at most 4 physical
fetches — one initial attempt plus at most `maxRetries = 3` retries — and the
attempt counter restarts at 0 for every page of a pagination sequence, so each
page's count obeys the same bound independently of earlier pages; a persistent
retryable status (503) consumes exactly the full budget of 4 fetches. -/
theorem C4_retry_ceiling :
    (∀ (script : List (Option Resp)) (refreshes : List Bool)
       (res : Except Unit Resp) (n : Nat),
       fetchWithRetry 3 script refreshes 0 = some (res, n) → n ≤ 4) ∧
    (∀ (pages : List PageScript) (r : Except ClientError (List Int × List String × Nat))
       (counts : List Nat),
       getAllGo 3 pages = some (r, counts) → ∀ c ∈ counts, c ≤ 4) ∧
    fetchWithRetry 3
        (List.replicate 5 (some ⟨503, none, none, true, [], false, none⟩)) [] 0
      = some (.ok ⟨503, none, none, true, [], false, none⟩, 4) := by
    refine ⟨?_, ?_, ?_⟩
    · intro script refreshes res n h
      have := fetchWithRetry_count 3 script refreshes 0 res n h
      omega
    · intro pages r counts h c hc
      have := getAllGo_counts 3 pages r counts h c hc
      omega
    · rfl

/-- C4 witness: a page that succeeds on the second attempt after one 503
consumes 2 ≤ 4 fetches. -/
theorem C4_witness :
    fetchWithRetry 3
        [some ⟨503, none, none, true, [], false, none⟩,
         some ⟨200, none, none, true, [], false, none⟩] [] 0
      = some (.ok ⟨200, none, none, true, [], false, none⟩, 2) ∧
    (2 : Nat) ≤ 4 := by
  refine ⟨rfl, ?_⟩
  exact C4_retry_ceiling.1
    [some ⟨503, none, none, true, [], false, none⟩,
     some ⟨200, none, none, true, [], false, none⟩] []
    (.ok ⟨200, none, none, true, [], false, none⟩) 2 rfl

/-! ## C5 — record concatenation and request-id sequence -/

theorem filterMap_isSome_length {α β : Type} (f : α → Option β) (l : List α)
    (h : ∀ a ∈ l, (f a).isSome = true) :
    (l.filterMap f).length = l.length := by
  induction l with
  | nil => rfl
  | cons a l ih =>
    have ha := h a (List.mem_cons_self a l)
    obtain ⟨b, hb⟩ := Option.isSome_iff_exists.mp ha
    simp [List.filterMap_cons, hb,
      ih (fun x hx => h x (List.mem_cons_of_mem _ hx))]

theorem getAllGo_success (m : Nat) (pages : List PageScript) (rs : List Resp)
    (hcorr : List.Forall₂ (fun p r => pageResp m p = some r) pages rs) :
    (∀ r ∈ rs, r.ok = true) → (∀ r ∈ rs, r.isArray = true) →
    pagesChain rs = true →
    ∃ counts st,
      getAllGo m pages =
        some (.ok ((rs.map Resp.records).flatten, rs.filterMap Resp.requestId, st),
          counts) := by
  induction hcorr with
  | nil =>
    intro _ _ hchain
    simp [pagesChain] at hchain
  | @cons p r ptail rtail hpr htail ih =>
    intro hok harr hchain
    have hfetch : ∃ n, fetchWithRetry m p.fetches p.refreshes 0 = some (.ok r, n) := by
      unfold pageResp at hpr
      split at hpr
      · rename_i r2 n2 heq
        cases hpr
        exact ⟨n2, heq⟩
      · simp at hpr
    obtain ⟨n, hfetch⟩ := hfetch
    have hokr : r.ok = true := hok r (List.mem_cons_self _ _)
    have harrr : r.isArray = true := harr r (List.mem_cons_self _ _)
    cases rtail with
    | nil =>
      cases htail
      have hnext : r.hasNext = false := by simpa [pagesChain] using hchain
      refine ⟨[n], r.status, ?_⟩
      simp only [getAllGo, hfetch]
      cases hrid : r.requestId <;>
        simp [hokr, harrr, hnext, hrid, List.filterMap_cons]
    | cons r2 rtail2 =>
      have hchain2 : r.hasNext = true ∧ pagesChain (r2 :: rtail2) = true := by
        simpa [pagesChain] using hchain
      obtain ⟨counts, st, hrec⟩ :=
        ih (fun x hx => hok x (List.mem_cons_of_mem _ hx))
          (fun x hx => harr x (List.mem_cons_of_mem _ hx)) hchain2.2
      refine ⟨n :: counts, st, ?_⟩
      simp only [getAllGo, hfetch]
      cases hrid : r.requestId <;>
        simp [hokr, harrr, hchain2.1, hrid, hrec, List.filterMap_cons]

/-- C5 counterexample: a successful two-page fetch whose second page carries
no x-request-id header returns a request-id sequence of length 1, not one
entry per page — refuting the claim that the sequence has exactly N entries
for N pages. -/
theorem C5_counterexample :
    getAllGo 3
        [⟨[some ⟨200, none, some "req-1", true, [1], true, none⟩], []⟩,
         ⟨[some ⟨200, none, none, true, [2], false, none⟩], []⟩]
      = some (.ok ([1, 2], ["req-1"], 200), [1, 1]) ∧
    (["req-1"].length ≠ 2) := by
  exact ⟨rfl, by decide⟩

/-- C5 (amended): for every successful paginated fetch the returned records
equal the concatenation of the pages' records in continuation order (never
re-sorted), and the request-id sequence lists, in page order, exactly the ids
of the successful page responses that carried one — so it has exactly N
entries only when every one of the N pages supplied an x-request-id. -/
theorem C5_concat_and_request_ids (pages : List PageScript) (rs : List Resp)
    (hcorr : List.Forall₂ (fun p r => pageResp 3 p = some r) pages rs)
    (hok : ∀ r ∈ rs, r.ok = true) (harr : ∀ r ∈ rs, r.isArray = true)
    (hchain : pagesChain rs = true) :
    (∃ counts st,
      getAllGo 3 pages =
        some (.ok ((rs.map Resp.records).flatten, rs.filterMap Resp.requestId, st),
          counts)) ∧
    (rs.filterMap Resp.requestId).length ≤ rs.length ∧
    ((∀ r ∈ rs, r.requestId.isSome = true) →
      (rs.filterMap Resp.requestId).length = rs.length) := by
  exact ⟨getAllGo_success 3 pages rs hcorr hok harr hchain,
    List.length_filterMap_le _ _,
    fun hall => filterMap_isSome_length _ _ hall⟩

/-- C5 witness: the amended theorem applied to a concrete two-page fetch in
which both pages carry request ids. -/
theorem C5_witness :
    List.Forall₂ (fun p r => pageResp 3 p = some r)
      [⟨[some ⟨200, none, some "id-a", true, [1, 2], true, none⟩], []⟩,
       ⟨[some ⟨200, none, some "id-b", true, [3], false, none⟩], []⟩]
      [⟨200, none, some "id-a", true, [1, 2], true, none⟩,
       ⟨200, none, some "id-b", true, [3], false, none⟩] ∧
    (∃ counts st,
      getAllGo 3
          [⟨[some ⟨200, none, some "id-a", true, [1, 2], true, none⟩], []⟩,
           ⟨[some ⟨200, none, some "id-b", true, [3], false, none⟩], []⟩]
        = some (.ok
            (([⟨200, none, some "id-a", true, [1, 2], true, none⟩,
               ⟨200, none, some "id-b", true, [3], false, none⟩].map
                 Resp.records).flatten,
             [⟨200, none, some "id-a", true, [1, 2], true, none⟩,
              ⟨200, none, some "id-b", true, [3], false, none⟩].filterMap
               Resp.requestId, st), counts)) := by
  have hcorr : List.Forall₂ (fun p r => pageResp 3 p = some r)
      [⟨[some ⟨200, none, some "id-a", true, [1, 2], true, none⟩], []⟩,
       ⟨[some ⟨200, none, some "id-b", true, [3], false, none⟩], []⟩]
      [⟨200, none, some "id-a", true, [1, 2], true, none⟩,
       ⟨200, none, some "id-b", true, [3], false, none⟩] := by
    refine List.Forall₂.cons rfl (List.Forall₂.cons rfl List.Forall₂.nil)
  refine ⟨hcorr, ?_⟩
  exact (C5_concat_and_request_ids _ _ hcorr (by decide) (by decide)
    (by decide)).1

/-! ## Association-list map lemmas -/

/-- The keys of the map, in insertion order. -/
def mapKeys {α : Type} (m : List (Int × α)) : List Int :=
  m.map Prod.fst

theorem mapHas_iff_mem {α : Type} (m : List (Int × α)) (k : Int) :
    mapHas m k = true ↔ k ∈ mapKeys m := by
  simp [mapHas, mapKeys, List.any_eq_true, List.mem_map]

theorem mapKeys_mapSet {α : Type} (m : List (Int × α)) (k : Int) (v : α) :
    mapKeys (mapSet m k v)
      = if mapHas m k = true then mapKeys m else mapKeys m ++ [k] := by
  by_cases h : mapHas m k = true
  · simp only [mapSet, h, if_true]
    unfold mapKeys
    rw [List.map_map]
    apply List.map_congr_left
    intro p _
    by_cases hk : p.1 = k <;> simp [hk]
  · simp [mapSet, h, mapKeys]

theorem nodup_mapSet {α : Type} (m : List (Int × α)) (k : Int) (v : α)
    (h : (mapKeys m).Nodup) : (mapKeys (mapSet m k v)).Nodup := by
  rw [mapKeys_mapSet]
  split
  · exact h
  · rename_i hnot
    have hk : k ∉ mapKeys m := fun hmem => hnot ((mapHas_iff_mem m k).mpr hmem)
    simp [List.nodup_append, h, hk]

theorem mapSet_mem {α : Type} {q : Int × α} {m : List (Int × α)} {k : Int}
    {v : α} (h : q ∈ mapSet m k v) : q ∈ m ∨ q.2 = v := by
  unfold mapSet at h
  split at h
  · rw [List.mem_map] at h
    obtain ⟨p, hp, hq⟩ := h
    by_cases hk : p.1 = k
    · right
      rw [← hq]
      simp [hk]
    · left
      rw [← hq]
      simpa [hk] using hp
  · rw [List.mem_append] at h
    rcases h with h | h
    · exact Or.inl h
    · right
      simp only [List.mem_singleton] at h
      rw [h]

theorem jsLookup_append_of_has {α : Type} (m extra : List (Int × α)) (k : Int)
    (h : mapHas m k = true) :
    jsLookup (m ++ extra) k = jsLookup m k := by
  have hsome : (m.find? (fun p => p.1 = k)).isSome = true := by
    rw [List.find?_isSome]
    simpa [mapHas, List.any_eq_true] using h
  obtain ⟨y, hy⟩ := Option.isSome_iff_exists.mp hsome
  simp [jsLookup, List.find?_append, hy]

theorem jsLookup_mem {α : Type} {m : List (Int × α)} {k : Int} {v : α}
    (h : jsLookup m k = some v) : ∃ p, p ∈ m ∧ (p : Int × α).2 = v := by
  unfold jsLookup at h
  cases hf : m.find? (fun p => p.1 = k) with
  | none =>
    rw [hf] at h
    simp at h
  | some p =>
    rw [hf] at h
    simp at h
    exact ⟨p, List.mem_of_find?_eq_some hf, h⟩

/-! ## Aggregation-pass lemmas -/

theorem todoPass_nodup (now rangeEnd : Int) (todos : List CanvasTodoItem) :
    ∀ m, (mapKeys m).Nodup → (mapKeys (todoPass now rangeEnd todos m)).Nodup := by
  induction todos with
  | nil =>
    intro m hm
    simpa [todoPass] using hm
  | cons t rest ih =>
    intro m hm
    cases ht : t.assignment with
    | none =>
      simp only [todoPass, ht]
      exact ih m hm
    | some a =>
      simp only [todoPass, ht]
      split
      · exact ih _ (nodup_mapSet _ _ _ hm)
      · exact ih m hm

theorem todoPass_source (now rangeEnd : Int) (todos : List CanvasTodoItem) :
    ∀ m, (∀ q ∈ m, (q : Int × UpcomingItem).2.source = .todo) →
      ∀ q ∈ todoPass now rangeEnd todos m, (q : Int × UpcomingItem).2.source = .todo := by
  induction todos with
  | nil =>
    intro m hm
    simpa [todoPass] using hm
  | cons t rest ih =>
    intro m hm
    cases ht : t.assignment with
    | none =>
      simp only [todoPass, ht]
      exact ih m hm
    | some a =>
      simp only [todoPass, ht]
      split
      · apply ih
        intro q hq
        rcases mapSet_mem hq with h | h
        · exact hm q h
        · rw [h]
          rfl
      · exact ih m hm

theorem assignmentPass_nodup (now rangeEnd cid : Int)
    (asgs : List CanvasAssignmentR) :
    ∀ m, (mapKeys m).Nodup →
      (mapKeys (assignmentPass now rangeEnd cid asgs m)).Nodup := by
  induction asgs with
  | nil =>
    intro m hm
    simpa [assignmentPass] using hm
  | cons a rest ih =>
    intro m hm
    simp only [assignmentPass]
    split
    · exact ih m hm
    · split
      · exact ih m hm
      · exact ih _ (nodup_mapSet _ _ _ hm)

theorem assignmentPass_extends (now rangeEnd cid : Int)
    (asgs : List CanvasAssignmentR) :
    ∀ m, ∃ extra, assignmentPass now rangeEnd cid asgs m = m ++ extra ∧
      ∀ q ∈ extra, (q : Int × UpcomingItem).2.source = .assignment := by
  induction asgs with
  | nil =>
    intro m
    exact ⟨[], by simp [assignmentPass], by simp⟩
  | cons a rest ih =>
    intro m
    simp only [assignmentPass]
    split
    · exact ih m
    · split
      · exact ih m
      · rename_i hskip hhas
        obtain ⟨extra, heq, hsrc⟩ := ih
          (mapSet m
            (mapUpcomingFromAssignment
              { a with course_id := some (a.course_id.getD cid) } .assignment).id
            (mapUpcomingFromAssignment
              { a with course_id := some (a.course_id.getD cid) } .assignment))
        rw [heq, mapSet, if_neg hhas, List.append_assoc]
        refine ⟨_ :: extra, rfl, ?_⟩
        intro q hq
        rcases List.mem_cons.mp hq with hq | hq
        · rw [hq]
          rfl
        · exact hsrc q hq

theorem coursesPass_nodup (now rangeEnd : Int)
    (results : List (Int × Except FetchError (List CanvasAssignmentR))) :
    ∀ m m2, coursesPass now rangeEnd results m = .ok m2 →
      (mapKeys m).Nodup → (mapKeys m2).Nodup := by
  induction results with
  | nil =>
    intro m m2 h hm
    simp only [coursesPass] at h
    cases h
    exact hm
  | cons q rest ih =>
    intro m m2 h hm
    obtain ⟨cid, r⟩ := q
    cases r with
    | error e =>
      simp only [coursesPass] at h
      split at h
      · exact ih m m2 h hm
      · cases h
    | ok asgs =>
      simp only [coursesPass] at h
      exact ih _ m2 h (assignmentPass_nodup now rangeEnd cid asgs m hm)

theorem coursesPass_extends (now rangeEnd : Int)
    (results : List (Int × Except FetchError (List CanvasAssignmentR))) :
    ∀ m, (∃ err, coursesPass now rangeEnd results m = .error err) ∨
      (∃ extra, coursesPass now rangeEnd results m = .ok (m ++ extra) ∧
        ∀ q ∈ extra, (q : Int × UpcomingItem).2.source = .assignment) := by
  induction results with
  | nil =>
    intro m
    right
    exact ⟨[], by simp [coursesPass], by simp⟩
  | cons q rest ih =>
    intro m
    obtain ⟨cid, r⟩ := q
    cases r with
    | error e =>
      by_cases ha : isAuthFailure e = true
      · simpa only [coursesPass, ha, if_true] using ih m
      · left
        exact ⟨e, by simp [coursesPass, ha]⟩
    | ok asgs =>
      simp only [coursesPass]
      obtain ⟨extra1, heq1, hsrc1⟩ := assignmentPass_extends now rangeEnd cid asgs m
      rw [heq1]
      rcases ih (m ++ extra1) with ⟨err, herr⟩ | ⟨extra2, heq2, hsrc2⟩
      · exact Or.inl ⟨err, herr⟩
      · right
        refine ⟨extra1 ++ extra2, by rw [heq2, List.append_assoc], ?_⟩
        intro p hp
        rcases List.mem_append.mp hp with hp | hp
        · exact hsrc1 p hp
        · exact hsrc2 p hp

/-! ## C8 — per-course authorization failures are the only non-fatal ones -/

/-- C8: during the upcoming-work aggregation an authorization failure on one
course's assignment fetch is skipped — the course loop behaves exactly as if
that course were absent — while a failure of any other kind (or a non-AppError
throw) aborts the whole pass with that error, provided it is the first fatal
one. -/
theorem C8_partial_failure (now rangeEnd : Int) :
    (∀ (pre post : List (Int × Except FetchError (List CanvasAssignmentR)))
        (cid : Int) (e : FetchError) (m : List (Int × UpcomingItem)),
      isAuthFailure e = true →
      coursesPass now rangeEnd (pre ++ (cid, Except.error e) :: post) m
        = coursesPass now rangeEnd (pre ++ post) m) ∧
    (∀ (pre post : List (Int × Except FetchError (List CanvasAssignmentR)))
        (cid : Int) (e : FetchError) (m : List (Int × UpcomingItem)),
      (∀ q ∈ pre, ∀ e2, (q : Int × Except FetchError (List CanvasAssignmentR)).2
          = Except.error e2 → isAuthFailure e2 = true) →
      isAuthFailure e = false →
      coursesPass now rangeEnd (pre ++ (cid, Except.error e) :: post) m
        = .error e) := by
  constructor
  · intro pre
    induction pre with
    | nil =>
      intro post cid e m ha
      simp [coursesPass, ha]
    | cons q pre ih =>
      intro post cid e m ha
      obtain ⟨c, r⟩ := q
      cases r with
      | error e2 =>
        by_cases h2 : isAuthFailure e2 = true
        · simp only [List.cons_append, coursesPass, h2, if_true]
          exact ih post cid e m ha
        · simp [List.cons_append, coursesPass, h2]
      | ok asgs =>
        simp only [List.cons_append, coursesPass]
        exact ih post cid e _ ha
  · intro pre
    induction pre with
    | nil =>
      intro post cid e m _ hne
      simp [coursesPass, hne]
    | cons q pre ih =>
      intro post cid e m hpre hne
      obtain ⟨c, r⟩ := q
      cases r with
      | error e2 =>
        have h2 : isAuthFailure e2 = true :=
          hpre (c, .error e2) (List.mem_cons_self _ _) e2 rfl
        simp only [List.cons_append, coursesPass, h2, if_true]
        exact ih post cid e
          _ (fun p hp => hpre p (List.mem_cons_of_mem _ hp)) hne
      | ok asgs =>
        simp only [List.cons_append, coursesPass]
        exact ih post cid e
          _ (fun p hp => hpre p (List.mem_cons_of_mem _ hp)) hne

/-- C8 witness: the theorem applied to a single inaccessible course. -/
theorem C8_witness :
    isAuthFailure (.app ⟨.authorizationFailed, "auth", 401, none, some 401⟩)
      = true ∧
    coursesPass 0 1000000
        [(7, Except.error
            (.app ⟨.authorizationFailed, "auth", 401, none, some 401⟩))] []
      = coursesPass 0 1000000 [] [] := by
  exact ⟨rfl,
    (C8_partial_failure 0 1000000).1 [] [] 7
      (.app ⟨.authorizationFailed, "auth", 401, none, some 401⟩) [] rfl⟩

/-! ## C2 — to-do entries win deduplication -/

/-- C2: whenever the merge succeeds, the deduplication map holds at most one
entry per id; every id inserted by the to-do pass is still present afterwards
with exactly the value the to-do pass stored for it (the per-course assignment
pass never overwrites an existing entry); and every value the to-do pass
stores carries provenance tag `todo`.  Hence an id produced by both feeds
appears exactly once, with the to-do entry's data and tag. -/
theorem C2_todo_priority (now rangeEnd : Int) (todos : List CanvasTodoItem)
    (courseResults : List (Int × Except FetchError (List CanvasAssignmentR)))
    (mFinal : List (Int × UpcomingItem))
    (hok : mergedMap now rangeEnd todos courseResults = .ok mFinal) :
    (mapKeys mFinal).Nodup ∧
    (∀ id, mapHas (todoPass now rangeEnd todos []) id = true →
      mapHas mFinal id = true ∧
      jsLookup mFinal id = jsLookup (todoPass now rangeEnd todos []) id) ∧
    (∀ id v, jsLookup (todoPass now rangeEnd todos []) id = some v →
      v.source = .todo) := by
  rcases coursesPass_extends now rangeEnd courseResults
      (todoPass now rangeEnd todos []) with ⟨err, herr⟩ | ⟨extra, heq, hsrc⟩
  · rw [mergedMap, herr] at hok
    cases hok
  · rw [mergedMap, heq] at hok
    cases hok
    refine ⟨?_, ?_, ?_⟩
    · exact coursesPass_nodup now rangeEnd courseResults _ _ heq
        (todoPass_nodup now rangeEnd todos [] (by simp [mapKeys]))
    · intro id hid
      refine ⟨?_, jsLookup_append_of_has _ _ _ hid⟩
      simp only [mapHas, List.any_append, Bool.or_eq_true]
      exact Or.inl hid
    · intro id v hv
      obtain ⟨p, hp, hpv⟩ := jsLookup_mem hv
      rw [← hpv]
      exact todoPass_source now rangeEnd todos [] (by simp) p hp

/-! Concrete fixtures shared by the aggregation witnesses. -/

/-- An assignment-backed to-do due at t = 500. -/
def sampleTodoA : CanvasAssignmentR :=
  ⟨1, some 10, "A1", some ⟨some 500⟩, some 10, some "u1", none⟩

/-- A to-do item wrapping `sampleTodoA`. -/
def sampleTodo : CanvasTodoItem :=
  ⟨some sampleTodoA, some "turl", some 5⟩

/-- A per-course assignment sharing id 1 with the to-do, due at t = 600. -/
def sampleAsg : CanvasAssignmentR :=
  ⟨1, some 10, "A2", some ⟨some 600⟩, none, some "u2", none⟩

/-- A second per-course assignment with fresh id 2, due at t = 300. -/
def sampleAsg2 : CanvasAssignmentR :=
  ⟨2, none, "A3", some ⟨some 300⟩, none, some "u3", none⟩

/-- One accessible course (id 10) producing both sample assignments. -/
def sampleResults : List (Int × Except FetchError (List CanvasAssignmentR)) :=
  [(10, .ok [sampleAsg, sampleAsg2])]

/-- The deduplication map the sample inputs produce over the horizon
`[0, 1000000]`: the to-do keeps id 1, the assignment feed contributes id 2. -/
def sampleMerged : List (Int × UpcomingItem) :=
  [(1, mapUpcomingFromAssignment sampleTodoA .todo),
   (2, mapUpcomingFromAssignment
        ⟨2, some 10, "A3", some ⟨some 300⟩, none, some "u3", none⟩ .assignment)]

/-- C2 witness: the theorem applied to the sample merge, at the shared id 1. -/
theorem C2_witness :
    mergedMap 0 1000000 [sampleTodo] sampleResults = .ok sampleMerged ∧
    mapHas (todoPass 0 1000000 [sampleTodo] []) 1 = true ∧
    (mapHas sampleMerged 1 = true ∧
      jsLookup sampleMerged 1 = jsLookup (todoPass 0 1000000 [sampleTodo] []) 1) := by
  have hm : mergedMap 0 1000000 [sampleTodo] sampleResults = .ok sampleMerged :=
    rfl
  exact ⟨hm, by decide,
    (C2_todo_priority 0 1000000 [sampleTodo] sampleResults sampleMerged hm).2.1
      1 (by decide)⟩

/-! ## C6 — sortedness and stability of the final sort -/

theorem filter_orderedInsert_neg {α : Type} (r : α → α → Prop) [DecidableRel r]
    (p : α → Bool) (a : α) (l : List α) (ha : p a = false) :
    (l.orderedInsert r a).filter p = l.filter p := by
  induction l with
  | nil => simp [List.orderedInsert, List.filter_cons, ha]
  | cons b l ih =>
    simp only [List.orderedInsert]
    split
    · simp [List.filter_cons, ha]
    · by_cases hb : p b = true <;> simp [List.filter_cons, hb, ha, ih]

theorem filter_orderedInsert_pos {α : Type} (r : α → α → Prop) [DecidableRel r]
    (p : α → Bool) (a : α) (l : List α) (ha : p a = true)
    (hcomp : ∀ b, p b = true → r a b) :
    (l.orderedInsert r a).filter p = a :: l.filter p := by
  induction l with
  | nil => simp [List.orderedInsert, List.filter_cons, ha]
  | cons b l ih =>
    simp only [List.orderedInsert]
    split
    · simp [List.filter_cons, ha]
    · rename_i hr
      have hpb : p b = false := by
        cases hpb : p b
        · rfl
        · exact absurd (hcomp b hpb) hr
      simp only [List.filter_cons, hpb, Bool.false_eq_true, if_false]
      exact ih

/-- Stability of the modelled sort: for each key value, the equal-key entries
of the sorted output are exactly the equal-key entries of the input, in the
same order. -/
theorem sortUpcoming_filter_stable (k : WithTop Int) (l : List UpcomingItem) :
    (sortUpcoming l).filter (fun e => sortTime e = k)
      = l.filter (fun e => sortTime e = k) := by
  unfold sortUpcoming
  induction l with
  | nil => rfl
  | cons a l ih =>
    rw [List.insertionSort]
    by_cases ha : sortTime a = k
    · rw [filter_orderedInsert_pos upKeyLE (fun e => sortTime e = k) a
        (List.insertionSort upKeyLE l) (by simp [ha])
        (fun b hpb => by
          have hbk : sortTime b = k := by simpa using hpb
          show upKeyLE a b
          rw [upKeyLE, ha, hbk])]
      rw [ih]
      simp [List.filter_cons, ha]
    · rw [filter_orderedInsert_neg upKeyLE (fun e => sortTime e = k) a
        (List.insertionSort upKeyLE l) (by simp [ha])]
      rw [ih]
      simp [List.filter_cons, ha]

/-- C6: the upcoming-work result is the final map's values sorted ascending by
the due-date key, where a null due date is the top element (date-less entries
sort last); the sort is stable, so entries with equal keys keep the map's
insertion order; and the map's insertion order is the to-do entries (in their
insertion order) followed by the assignment-feed entries (in theirs). -/
theorem C6_sorted_stable (now rangeEnd : Int) (todos : List CanvasTodoItem)
    (courseResults : List (Int × Except FetchError (List CanvasAssignmentR)))
    (mFinal : List (Int × UpcomingItem))
    (hok : mergedMap now rangeEnd todos courseResults = .ok mFinal) :
    listUpcoming now rangeEnd todos courseResults
      = .ok (sortUpcoming (mapValues mFinal)) ∧
    List.Sorted upKeyLE (sortUpcoming (mapValues mFinal)) ∧
    (∀ k : WithTop Int,
      (sortUpcoming (mapValues mFinal)).filter (fun e => sortTime e = k)
        = (mapValues mFinal).filter (fun e => sortTime e = k)) ∧
    (∃ extra, mFinal = todoPass now rangeEnd todos [] ++ extra ∧
      ∀ q ∈ extra, (q : Int × UpcomingItem).2.source = .assignment) := by
  refine ⟨?_, ?_, ?_, ?_⟩
  · simp only [listUpcoming, hok]
  · simpa [sortUpcoming] using
      List.sorted_insertionSort upKeyLE (mapValues mFinal)
  · intro k
    exact sortUpcoming_filter_stable k (mapValues mFinal)
  · rcases coursesPass_extends now rangeEnd courseResults
        (todoPass now rangeEnd todos []) with ⟨err, herr⟩ | ⟨extra, heq, hsrc⟩
    · rw [mergedMap, herr] at hok
      cases hok
    · rw [mergedMap, heq] at hok
      cases hok
      exact ⟨extra, rfl, hsrc⟩

/-- C6 witness: the theorem applied to the sample merge. -/
theorem C6_witness :
    mergedMap 0 1000000 [sampleTodo] sampleResults = .ok sampleMerged ∧
    listUpcoming 0 1000000 [sampleTodo] sampleResults
      = .ok (sortUpcoming (mapValues sampleMerged)) ∧
    List.Sorted upKeyLE (sortUpcoming (mapValues sampleMerged)) := by
  have hm : mergedMap 0 1000000 [sampleTodo] sampleResults = .ok sampleMerged :=
    rfl
  have h := C6_sorted_stable 0 1000000 [sampleTodo] sampleResults sampleMerged hm
  exact ⟨hm, h.1, h.2.1⟩

end Canvas
